import Mathlib

/-!
Verification development for the penny-edge hotness-score engine.

The embedding models the TypeScript sources:
  * `src/lib/price-service.ts` — `calculateHotnessScore` (the Scorer) and the
    ordering pipeline at the end of `getAveragePrices`;
  * `src/app/api/symbols/update-hotness-scores/route.ts` — the batch
    recomputation loop (candidate fetch, per-symbol skip logic, cursor
    bookkeeping, per-row persistence);
  * `src/app/api/symbols/update-recent-prices/route.ts` — the price-refresh
    update that replaces `recent_prices` and clears the stored score.

JavaScript numbers are modelled by `JsNum`: either a finite real, one of the
two infinities, or NaN, with IEEE-754-style propagation through the
arithmetic used by the sources (finite arithmetic is modelled exactly over ℝ,
ignoring floating-point rounding).
-/

/-- Model of a JavaScript `number`: a finite real, `Infinity`, `-Infinity`,
or `NaN`. -/
inductive JsNum : Type where
  | fin (x : ℝ)
  | posInf
  | negInf
  | nan

namespace JsNum

/-- JavaScript's `isNaN` check. -/
def jsIsNaN : JsNum → Bool
  | nan => true
  | _ => false

/-- Unary minus on JavaScript numbers. -/
def jsNeg : JsNum → JsNum
  | fin x => fin (-x)
  | posInf => negInf
  | negInf => posInf
  | nan => nan

/-- Addition of JavaScript numbers (IEEE-754 semantics; finite addition is
exact). -/
def jsAdd : JsNum → JsNum → JsNum
  | fin x, fin y => fin (x + y)
  | fin _, posInf => posInf
  | fin _, negInf => negInf
  | posInf, fin _ => posInf
  | negInf, fin _ => negInf
  | posInf, posInf => posInf
  | negInf, negInf => negInf
  | posInf, negInf => nan
  | negInf, posInf => nan
  | _, _ => nan

/-- Subtraction of JavaScript numbers, as addition of the negation. -/
def jsSub (a b : JsNum) : JsNum := jsAdd a (jsNeg b)

/-- Multiplication of JavaScript numbers (IEEE-754 semantics;
`0 * ±Infinity = NaN`). -/
noncomputable def jsMul : JsNum → JsNum → JsNum
  | fin x, fin y => fin (x * y)
  | fin x, posInf => if 0 < x then posInf else if x < 0 then negInf else nan
  | fin x, negInf => if 0 < x then negInf else if x < 0 then posInf else nan
  | posInf, fin y => if 0 < y then posInf else if y < 0 then negInf else nan
  | negInf, fin y => if 0 < y then negInf else if y < 0 then posInf else nan
  | posInf, posInf => posInf
  | negInf, negInf => posInf
  | posInf, negInf => negInf
  | negInf, posInf => negInf
  | _, _ => nan

/-- Division of JavaScript numbers (IEEE-754 semantics with the zero
denominator taken as `+0`, which is how the sources produce it):
`x / 0 = ±Infinity` for `x ≠ 0` and `0 / 0 = NaN`. -/
noncomputable def jsDiv : JsNum → JsNum → JsNum
  | fin x, fin y =>
      if y = 0 then (if x = 0 then nan else if 0 < x then posInf else negInf)
      else fin (x / y)
  | fin _, posInf => fin 0
  | fin _, negInf => fin 0
  | posInf, fin y => if 0 ≤ y then posInf else negInf
  | negInf, fin y => if 0 ≤ y then negInf else posInf
  | _, _ => nan

/-- The JavaScript comparison `a <= b` (any comparison with NaN is false). -/
noncomputable def jsLe : JsNum → JsNum → Bool
  | fin x, fin y => decide (x ≤ y)
  | fin _, posInf => true
  | fin _, negInf => false
  | posInf, fin _ => false
  | negInf, fin _ => true
  | posInf, posInf => true
  | negInf, negInf => true
  | posInf, negInf => false
  | negInf, posInf => true
  | _, _ => false

/-- The JavaScript comparison `a < b` (any comparison with NaN is false). -/
noncomputable def jsLt : JsNum → JsNum → Bool
  | fin x, fin y => decide (x < y)
  | fin _, posInf => true
  | fin _, negInf => false
  | posInf, fin _ => false
  | negInf, fin _ => true
  | posInf, posInf => false
  | negInf, negInf => false
  | posInf, negInf => false
  | negInf, posInf => true
  | _, _ => false

/-- JavaScript's `Math.min` on two arguments: NaN if either argument is NaN, otherwise the
smaller argument. -/
noncomputable def jsMin (a b : JsNum) : JsNum :=
  if jsIsNaN a || jsIsNaN b then nan else if jsLe a b then a else b

/-- JavaScript's `Math.sqrt`: NaN on negative inputs, exact square root on nonnegative
finite inputs. -/
noncomputable def jsSqrt : JsNum → JsNum
  | fin x => if 0 ≤ x then fin (Real.sqrt x) else nan
  | posInf => posInf
  | _ => nan

/-- JavaScript's `Math.round`: half-up rounding toward `+Infinity` on finite inputs. -/
noncomputable def jsRound : JsNum → JsNum
  | fin x => fin (⌊x + 1 / 2⌋ : ℤ)
  | posInf => posInf
  | negInf => negInf
  | nan => nan

/-- Summation as `list.reduce((sum, price) => sum + price, 0)`. -/
noncomputable def jsSum (l : List JsNum) : JsNum := l.foldl jsAdd (fin 0)

end JsNum

open JsNum

/-- Structure `HotnessScoreParams` from `src/lib/price-service.ts`; the comment ranges
there document `dropSensitivity` 10–25, `dropMaxScore` 60–80,
`volatilityThreshold` 1.0–5.0, `volatilityMaxBonus` 20–40,
`downtrendPenalty` 0.3–0.7, `stableMultiplier` 0.5–0.8,
`uptrendMultiplier` 0.8–1.2, `trendBoundary` 2.0–5.0. -/
structure HotnessScoreParams where
  dropSensitivity : ℝ
  dropMaxScore : ℝ
  volatilityThreshold : ℝ
  volatilityMaxBonus : ℝ
  downtrendPenalty : ℝ
  stableMultiplier : ℝ
  uptrendMultiplier : ℝ
  trendBoundary : ℝ

/-- Constant `DEFAULT_HOTNESS_PARAMS` from `src/lib/price-service.ts`. -/
def DEFAULT_HOTNESS_PARAMS : HotnessScoreParams :=
  { dropSensitivity := 15
    dropMaxScore := 70
    volatilityThreshold := 2.0
    volatilityMaxBonus := 30
    downtrendPenalty := 0.5
    stableMultiplier := 0.7
    uptrendMultiplier := 1.0
    trendBoundary := 3.0 }

/-- The documented parameter ranges from the field comments of
`HotnessScoreParams` in `src/lib/price-service.ts`. -/
def paramsInRange (p : HotnessScoreParams) : Prop :=
  10 ≤ p.dropSensitivity ∧ p.dropSensitivity ≤ 25 ∧
  60 ≤ p.dropMaxScore ∧ p.dropMaxScore ≤ 80 ∧
  1 ≤ p.volatilityThreshold ∧ p.volatilityThreshold ≤ 5 ∧
  20 ≤ p.volatilityMaxBonus ∧ p.volatilityMaxBonus ≤ 40 ∧
  0.3 ≤ p.downtrendPenalty ∧ p.downtrendPenalty ≤ 0.7 ∧
  0.5 ≤ p.stableMultiplier ∧ p.stableMultiplier ≤ 0.8 ∧
  0.8 ≤ p.uptrendMultiplier ∧ p.uptrendMultiplier ≤ 1.2 ∧
  2 ≤ p.trendBoundary ∧ p.trendBoundary ≤ 5

/-- Filtering step `averagePrices.filter(price => typeof price === 'number'
&& !isNaN(price))` of `calculateHotnessScore`: every `JsNum` has JavaScript type `'number'`
(including the infinities), so only NaN entries are removed. -/
def validFilter (l : List JsNum) : List JsNum := l.filter (fun p => !(jsIsNaN p))

/-- Step 1 of `calculateHotnessScore`: the historical average: mean of all
valid prices except the most recent one (index 0). -/
noncomputable def historicalAvg (v : List JsNum) : JsNum :=
  jsDiv (jsSum v.tail) (.fin ((v.length : ℝ) - 1))

/-- Element `validPrices[0]`, the most recent price. -/
def mostRecentPrice (v : List JsNum) : JsNum := v.getD 0 .nan

/-- Step 2 of `calculateHotnessScore`:
`((historicalAvg - mostRecentPrice) / historicalAvg) * 100`. -/
noncomputable def dropPercentage (v : List JsNum) : JsNum :=
  jsMul (jsDiv (jsSub (historicalAvg v) (mostRecentPrice v)) (historicalAvg v)) (.fin 100)

/-- Step 3 of `calculateHotnessScore`:
`Math.min(params.dropMaxScore, dropPercentage * params.dropSensitivity)`. -/
noncomputable def dropScore (v : List JsNum) (p : HotnessScoreParams) : JsNum :=
  jsMin (.fin p.dropMaxScore) (jsMul (dropPercentage v) (.fin p.dropSensitivity))

/-- Step 4 of `calculateHotnessScore`: the population mean over all valid
prices. -/
noncomputable def meanPrice (v : List JsNum) : JsNum :=
  jsDiv (jsSum v) (.fin (v.length : ℝ))

/-- Step 4 of `calculateHotnessScore`: the population variance (divide by N);
`Math.pow(price - meanPrice, 2)` is modelled as the square. -/
noncomputable def priceVariance (v : List JsNum) : JsNum :=
  jsDiv (jsSum (v.map (fun pr => jsMul (jsSub pr (meanPrice v)) (jsSub pr (meanPrice v)))))
    (.fin (v.length : ℝ))

/-- Step 4 of `calculateHotnessScore`: `stdDev / meanPrice * 100`. -/
noncomputable def volatilityPercentage (v : List JsNum) : JsNum :=
  jsMul (jsDiv (jsSqrt (priceVariance v)) (meanPrice v)) (.fin 100)

/-- Element `validPrices[N - 1]`, the oldest price. -/
def oldestPrice (v : List JsNum) : JsNum := v.getD (v.length - 1) .nan

/-- Step 5 of `calculateHotnessScore`:
`((mostRecentPrice - oldestPrice) / oldestPrice) * 100`. -/
noncomputable def trendPercentage (v : List JsNum) : JsNum :=
  jsMul (jsDiv (jsSub (mostRecentPrice v) (oldestPrice v)) (oldestPrice v)) (.fin 100)

/-- Step 6 of `calculateHotnessScore`: the trend-dependent multiplier
(downtrend / uptrend / stable); NaN trend falls into the stable branch, as in
JavaScript where both strict comparisons are false. -/
noncomputable def trendMultiplier (v : List JsNum) (p : HotnessScoreParams) : ℝ :=
  if jsLt (trendPercentage v) (.fin (-p.trendBoundary)) then p.downtrendPenalty
  else if jsLt (.fin p.trendBoundary) (trendPercentage v) then p.uptrendMultiplier
  else p.stableMultiplier

/-- Step 6 of `calculateHotnessScore`: the volatility bonus, zero unless
`volatilityPercentage >= params.volatilityThreshold` (false when the
volatility is NaN). -/
noncomputable def volatilityScore (v : List JsNum) (p : HotnessScoreParams) : JsNum :=
  if jsLe (.fin p.volatilityThreshold) (volatilityPercentage v) then
    jsMul (jsMul (jsMin (.fin 1) (jsDiv (volatilityPercentage v) (.fin 10)))
      (.fin p.volatilityMaxBonus)) (.fin (trendMultiplier v p))
  else .fin 0

/-- Step 7 of `calculateHotnessScore`:
`Math.min(100, dropScore + volatilityScore)`. -/
noncomputable def hotnessRaw (v : List JsNum) (p : HotnessScoreParams) : JsNum :=
  jsMin (.fin 100) (jsAdd (dropScore v p) (volatilityScore v p))

/-- Function `calculateHotnessScore` from `src/lib/price-service.ts`.  The two thrown
validation errors are modelled as `Except.error` with the source's messages;
the remaining body never throws.  `Math.round(h * 100) / 100` rounds the
result to two decimals. -/
noncomputable def calculateHotnessScore (averagePrices : List JsNum)
    (p : HotnessScoreParams) : Except String JsNum :=
  if averagePrices.length < 2 then
    .error "Average prices array must contain at least 2 values"
  else
    let v := validFilter averagePrices
    if v.length < 2 then .error "At least 2 valid price values required"
    else if jsLe (dropPercentage v) (.fin 0) then .ok (.fin 0)
    else .ok (jsDiv (jsRound (jsMul (hotnessRaw v p) (.fin 100))) (.fin 100))


/-- One entry of `recent_prices.periods` (`AveragePricePeriod` in
`src/types/symbol.ts`): only the fields the modelled logic reads are kept —
`averagePrice` (the one the batch loop extracts) and the day offsets, which
encode recency (`startDaysAgo = i * numberOfDaysInPeriod` for the `i`-th most
recent window, so smaller offsets mean newer periods).  The other fields
(`name`, `highestPrice`, `lowestPrice`, change data) are never read by the
scoring pipeline. -/
structure AveragePricePeriod where
  startDaysAgo : ℕ
  endDaysAgo : ℕ
  averagePrice : JsNum

/-- The final ordering pipeline of `getAveragePrices`
(`src/lib/price-service.ts`): the construction loop builds `periods`
newest-first (index 0 is the current window); the source then runs
`periods.reverse()` followed by `periods.slice(-amountOfPeriods).reverse()`.
`slice(-m)` keeps the last `max(len-m,0)`-onward elements, i.e. drops
`len - m` (truncated) from the front. -/
def periodsToReturn {α : Type} (periods : List α) (amountOfPeriods : ℕ) : List α :=
  ((periods.reverse).drop (periods.reverse.length - amountOfPeriods)).reverse

/-- A row of the symbols table as read by the batch loop
(`select('id, code, exchange, recent_prices')`); ids are modelled as naturals
carrying the `order('id')` sort key, and `db` lists the non-deleted rows in
ascending id order. -/
structure BatchSymbol where
  id : ℕ
  recent_prices : Option (List AveragePricePeriod)

/-- The candidate query of `POST /api/symbols/update-hotness-scores`:
rows with non-null `recent_prices`, ascending by id, strictly after
`continueFromId` when present, limited to `batchSize`. -/
def fetchSymbols (db : List BatchSymbol) (continueFromId : Option ℕ)
    (batchSize : ℕ) : List BatchSymbol :=
  (db.filter (fun s => s.recent_prices.isSome &&
    match continueFromId with
    | none => true
    | some c => decide (c < s.id))).take batchSize

/-- Extraction `symbol.recent_prices.periods.slice().reverse().map(period =>
period.averagePrice)` — the sequence the loop passes to
`calculateHotnessScore`. -/
def scorerInput (periods : List AveragePricePeriod) : List JsNum :=
  (periods.reverse).map (fun per => per.averagePrice)

/-- Whether the loop stages an update for a symbol: it `continue`s when
`recent_prices` is null or has fewer than 2 periods, and otherwise catches
the `calculateHotnessScore` throw — which, by `scorer_ok_iff`, happens
exactly when fewer than 2 non-NaN prices remain. -/
def canScore (s : BatchSymbol) : Bool :=
  match s.recent_prices with
  | none => false
  | some ps => !(decide (ps.length < 2)) && decide (2 ≤ (validFilter (scorerInput ps)).length)

/-- The response fields of one call of the batch endpoint that the claims
speak about.  When the fetched page is empty the route answers early with
`"No symbols found to process"`; that JSON carries no `hasMore` or
`lastProcessedId` fields, modelled here as `false` / `none` with
`emptyResponse = true`. -/
structure BatchResult where
  processedIds : List ℕ
  processed : ℕ
  hasMore : Bool
  lastProcessedId : Option ℕ
  emptyResponse : Bool

/-- The fetch/score/cursor part of `POST /api/symbols/update-hotness-scores`
(the persistence loop is modelled separately by `persistUpdates`): fetch up
to `batchSize` candidates, stage an update for each symbol that can be
scored, and report `hasMore = (symbols.length == batchSize)` together with
`lastProcessedId = symbols[symbols.length - 1]?.id` (nulled when
`hasMore` is false). -/
def runBatch (db : List BatchSymbol) (continueFromId : Option ℕ)
    (batchSize : ℕ) : BatchResult :=
  let symbols := fetchSymbols db continueFromId batchSize
  if symbols.isEmpty then
    { processedIds := [], processed := 0, hasMore := false,
      lastProcessedId := none, emptyResponse := true }
  else
    let updates := (symbols.filter canScore).map (fun s => s.id)
    let more := symbols.length == batchSize
    { processedIds := updates
      processed := updates.length
      hasMore := more
      lastProcessedId := if more then (symbols.getLast?).map (fun s => s.id) else none
      emptyResponse := false }

/-- Iteration of `n` successive calls of the batch endpoint, each passing the previous
call's returned `lastProcessedId` as the next `continueFromId`. -/
def sweepCalls (db : List BatchSymbol) (batchSize : ℕ) :
    ℕ → Option ℕ → List BatchResult
  | 0, _ => []
  | n + 1, continueFromId =>
      let r := runBatch db continueFromId batchSize
      r :: sweepCalls db batchSize n r.lastProcessedId

/-- One staged update of the batch loop: `{ id, hotness_score:
Math.round(hotnessScore), last_updated_hotness_score: new Date().toISOString() }`;
the rounded score is an integer and the timestamp is abstracted as a natural
number. -/
structure ScoreUpdate where
  id : ℕ
  hotness_score : ℤ
  last_updated_hotness_score : ℕ

/-- A stored symbols row as touched by the persistence step of the batch
route (only the written columns are modelled). -/
structure ScoredRow where
  id : ℕ
  hotness_score : Option ℤ
  last_updated_hotness_score : Option ℕ

/-- One `supabaseAdmin.update({...}).eq('id', update.id)` call: every row
whose id matches receives the new score and timestamp. -/
def applyUpdate (db : List ScoredRow) (u : ScoreUpdate) : List ScoredRow :=
  db.map (fun row =>
    if row.id = u.id then
      { row with hotness_score := some u.hotness_score,
                 last_updated_hotness_score := some u.last_updated_hotness_score }
    else row)

/-- The persistence loop of the batch route: staged updates are written one
at a time; a failing write (`fails u.id = true`) leaves the store unchanged
and its error is collected in `updateErrors`, and the loop continues with the
remaining updates.  Returns the final store and the number of collected
errors (the route answers HTTP 500 when that number is nonzero). -/
def persistUpdates (db : List ScoredRow) (updates : List ScoreUpdate)
    (fails : ℕ → Bool) : List ScoredRow × ℕ :=
  updates.foldl
    (fun acc u => if fails u.id then (acc.1, acc.2 + 1) else (applyUpdate acc.1 u, acc.2))
    (db, 0)

/-- A full symbols row as read and written by
`POST /api/symbols/update-recent-prices` (only the fields that route touches). -/
structure SymbolEntity where
  code : String
  recent_prices : Option (List AveragePricePeriod)
  hotness_score : Option ℤ
  last_updated_hotness_score : Option ℤ
  last_updated_recent_prices : Option ℤ

/-- Staleness check `shouldUpdatePrices` from the update-recent-prices route: refresh when
`last_updated_recent_prices` is absent or strictly older than 24 hours
(millisecond timestamps modelled as integers):
`new Date(last_updated_recent_prices) < new Date(now - 24*60*60*1000)`. -/
def shouldUpdatePrices (s : SymbolEntity) (now : ℤ) : Bool :=
  match s.last_updated_recent_prices with
  | none => true
  | some t => decide (t < now - 24 * 60 * 60 * 1000)

/-- An update patch as handed to `symbolService.updateSymbolByCode`.  Each
field is doubly optional: the outer `Option` records whether the key is
present in the patch object at all, the inner one the value written to the
nullable column (`some none` models an explicit `null`).  Only the fields
the refresh path can mention are modelled. -/
structure UpdateSymbolInput where
  recent_prices : Option (Option (List AveragePricePeriod))
  hotness_score : Option (Option ℤ)
  last_updated_hotness_score : Option (Option ℤ)

/-- Validation step `updateSymbolSchema.parse(input)` performed by
`symbolService.updateSymbolByCode` (`src/lib/symbol-service.ts`): the schema
is `createSymbolSchema.partial()` (`src/lib/symbol-validation.ts`), whose
only keys are `code`, `exchange` and `recent_prices`.  A zod object schema
strips unrecognized keys by default, so `hotness_score` and
`last_updated_hotness_score` are removed from the patch before it reaches
the repository. -/
def updateSymbolSchemaParse (input : UpdateSymbolInput) : UpdateSymbolInput :=
  { recent_prices := input.recent_prices
    hotness_score := none
    last_updated_hotness_score := none }

/-- Repository write `updateSymbolByCode` (symbol-repository): spreads the
validated patch over the stored row — keys present in the patch overwrite
the column, absent keys leave it unchanged — and stamps
`last_updated_recent_prices` whenever `recent_prices` is among the patched
keys (`input.recent_prices !== undefined`). -/
def applySymbolPatch (s : SymbolEntity) (input : UpdateSymbolInput)
    (now : ℤ) : SymbolEntity :=
  { s with
    recent_prices :=
      match input.recent_prices with
      | some v => v
      | none => s.recent_prices
    hotness_score :=
      match input.hotness_score with
      | some v => v
      | none => s.hotness_score
    last_updated_hotness_score :=
      match input.last_updated_hotness_score with
      | some v => v
      | none => s.last_updated_hotness_score
    last_updated_recent_prices :=
      if input.recent_prices.isSome then some now
      else s.last_updated_recent_prices }

/-- Service call `symbolService.updateSymbolByCode`: validates the patch
through `updateSymbolSchema.parse` (stripping unknown keys) and hands the
validated data to the repository write. -/
def updateSymbolByCode (s : SymbolEntity) (input : UpdateSymbolInput)
    (now : ℤ) : SymbolEntity :=
  applySymbolPatch s (updateSymbolSchemaParse input) now

/-- The refresh branch of the update-recent-prices route: when prices are
stale it calls `symbolService.updateSymbolByCode` once with the patch
`{ recent_prices: priceData, hotness_score: null,
last_updated_hotness_score: null }`; otherwise the stored row is left
untouched. -/
def refreshSymbol (s : SymbolEntity) (now : ℤ)
    (priceData : List AveragePricePeriod) : SymbolEntity :=
  if shouldUpdatePrices s now then
    updateSymbolByCode s
      { recent_prices := some (some priceData)
        hotness_score := some none
        last_updated_hotness_score := some none } now
  else s


/-- Sample period pair used by the concrete batch examples (two valid
periods, so the scorer succeeds). -/
def samplePeriods : List AveragePricePeriod := [⟨0, 5, .fin 5⟩, ⟨5, 10, .fin 6⟩]

/-- Two scorable rows in ascending id order (M = 2). -/
def twoSymbolDb : List BatchSymbol :=
  [⟨1, some samplePeriods⟩, ⟨2, some samplePeriods⟩]

/-- Three scorable rows in ascending id order (M = 3). -/
def threeSymbolDb : List BatchSymbol :=
  [⟨1, some samplePeriods⟩, ⟨2, some samplePeriods⟩, ⟨3, some samplePeriods⟩]

/-- Two rows where row 1 has a single period (skipped by the loop) and
row 2 is scorable. -/
def mixedSymbolDb : List BatchSymbol :=
  [⟨1, some [⟨0, 5, .fin 5⟩]⟩, ⟨2, some samplePeriods⟩]
namespace JsNum

@[simp] theorem jsIsNaN_fin (x : ℝ) : jsIsNaN (fin x) = false := rfl
@[simp] theorem jsIsNaN_nan : jsIsNaN nan = true := rfl
@[simp] theorem jsIsNaN_posInf : jsIsNaN posInf = false := rfl
@[simp] theorem jsIsNaN_negInf : jsIsNaN negInf = false := rfl

@[simp] theorem jsAdd_fin (x y : ℝ) : jsAdd (fin x) (fin y) = fin (x + y) := rfl
@[simp] theorem jsAdd_nan_left (b : JsNum) : jsAdd nan b = nan := by cases b <;> rfl
@[simp] theorem jsAdd_fin_nan (x : ℝ) : jsAdd (fin x) nan = nan := rfl
@[simp] theorem jsAdd_posInf_fin (y : ℝ) : jsAdd posInf (fin y) = posInf := rfl
@[simp] theorem jsAdd_fin_posInf (x : ℝ) : jsAdd (fin x) posInf = posInf := rfl
@[simp] theorem jsAdd_negInf_fin (y : ℝ) : jsAdd negInf (fin y) = negInf := rfl
@[simp] theorem jsAdd_fin_negInf (x : ℝ) : jsAdd (fin x) negInf = negInf := rfl

@[simp] theorem jsNeg_fin (x : ℝ) : jsNeg (fin x) = fin (-x) := rfl

@[simp] theorem jsSub_fin (x y : ℝ) : jsSub (fin x) (fin y) = fin (x - y) := by
  simp [jsSub, sub_eq_add_neg]
@[simp] theorem jsSub_nan_left (b : JsNum) : jsSub nan b = nan := by cases b <;> rfl
@[simp] theorem jsSub_fin_nan (x : ℝ) : jsSub (fin x) nan = nan := rfl

@[simp] theorem jsMul_fin (x y : ℝ) : jsMul (fin x) (fin y) = fin (x * y) := rfl
@[simp] theorem jsMul_nan_left (b : JsNum) : jsMul nan b = nan := by cases b <;> rfl
@[simp] theorem jsMul_fin_nan (x : ℝ) : jsMul (fin x) nan = nan := rfl
@[simp] theorem jsMul_posInf_nan : jsMul posInf nan = nan := rfl
@[simp] theorem jsMul_negInf_nan : jsMul negInf nan = nan := rfl
@[simp] theorem jsMul_posInf_fin_pos {y : ℝ} (h : 0 < y) : jsMul posInf (fin y) = posInf := by
  simp [jsMul, h]
@[simp] theorem jsMul_negInf_fin_pos {y : ℝ} (h : 0 < y) : jsMul negInf (fin y) = negInf := by
  simp [jsMul, h]
@[simp] theorem jsMul_fin_posInf_pos {x : ℝ} (h : 0 < x) : jsMul (fin x) posInf = posInf := by
  simp [jsMul, h]

@[simp] theorem jsDiv_fin_fin {y : ℝ} (h : y ≠ 0) (x : ℝ) : jsDiv (fin x) (fin y) = fin (x / y) := by
  simp [jsDiv, h]
@[simp] theorem jsDiv_zero_zero : jsDiv (fin 0) (fin 0) = nan := by simp [jsDiv]
@[simp] theorem jsDiv_fin_zero_pos {x : ℝ} (h : 0 < x) : jsDiv (fin x) (fin 0) = posInf := by
  simp [jsDiv, h, ne_of_gt h]
@[simp] theorem jsDiv_fin_zero_neg {x : ℝ} (h : x < 0) : jsDiv (fin x) (fin 0) = negInf := by
  simp [jsDiv, ne_of_lt h, h, not_lt_of_lt h]
@[simp] theorem jsDiv_nan_left (b : JsNum) : jsDiv nan b = nan := by cases b <;> rfl
@[simp] theorem jsDiv_fin_nan (x : ℝ) : jsDiv (fin x) nan = nan := rfl
@[simp] theorem jsDiv_posInf_nan : jsDiv posInf nan = nan := rfl
@[simp] theorem jsDiv_negInf_nan : jsDiv negInf nan = nan := rfl
@[simp] theorem jsDiv_fin_posInf (x : ℝ) : jsDiv (fin x) posInf = fin 0 := rfl
@[simp] theorem jsDiv_posInf_fin_nonneg {y : ℝ} (h : 0 ≤ y) : jsDiv posInf (fin y) = posInf := by
  simp [jsDiv, h]
@[simp] theorem jsDiv_negInf_fin_nonneg {y : ℝ} (h : 0 ≤ y) : jsDiv negInf (fin y) = negInf := by
  simp [jsDiv, h]

@[simp] theorem jsLe_fin_true {x y : ℝ} (h : x ≤ y) : jsLe (fin x) (fin y) = true := by
  simp [jsLe, h]
@[simp] theorem jsLe_fin_false {x y : ℝ} (h : y < x) : jsLe (fin x) (fin y) = false := by
  simp [jsLe, not_le_of_lt h]
@[simp] theorem jsLe_fin_nan (x : ℝ) : jsLe (fin x) nan = false := rfl
@[simp] theorem jsLe_nan_left (b : JsNum) : jsLe nan b = false := by cases b <;> rfl
@[simp] theorem jsLe_fin_posInf (x : ℝ) : jsLe (fin x) posInf = true := rfl
@[simp] theorem jsLe_fin_negInf (x : ℝ) : jsLe (fin x) negInf = false := rfl

@[simp] theorem jsLt_fin_true {x y : ℝ} (h : x < y) : jsLt (fin x) (fin y) = true := by
  simp [jsLt, h]
@[simp] theorem jsLt_fin_false {x y : ℝ} (h : y ≤ x) : jsLt (fin x) (fin y) = false := by
  simp [jsLt, not_lt_of_le h]
@[simp] theorem jsLt_nan_left (b : JsNum) : jsLt nan b = false := by cases b <;> rfl
@[simp] theorem jsLt_fin_nan (x : ℝ) : jsLt (fin x) nan = false := rfl
@[simp] theorem jsLt_fin_posInf (x : ℝ) : jsLt (fin x) posInf = true := rfl
@[simp] theorem jsLt_negInf_fin (y : ℝ) : jsLt negInf (fin y) = true := rfl
@[simp] theorem jsLt_posInf_fin (y : ℝ) : jsLt posInf (fin y) = false := rfl
@[simp] theorem jsLt_fin_negInf (x : ℝ) : jsLt (fin x) negInf = false := rfl

@[simp] theorem jsMin_fin_left {x y : ℝ} (h : x ≤ y) : jsMin (fin x) (fin y) = fin x := by
  simp [jsMin, jsLe, h]
@[simp] theorem jsMin_fin_right {x y : ℝ} (h : y < x) : jsMin (fin x) (fin y) = fin y := by
  simp [jsMin, jsLe, not_le_of_lt h]
@[simp] theorem jsMin_fin_nan (x : ℝ) : jsMin (fin x) nan = nan := by simp [jsMin]
@[simp] theorem jsMin_nan_left (b : JsNum) : jsMin nan b = nan := by simp [jsMin]
@[simp] theorem jsMin_fin_posInf (x : ℝ) : jsMin (fin x) posInf = fin x := by
  simp [jsMin, jsLe, jsIsNaN]

@[simp] theorem jsSqrt_fin {x : ℝ} (h : 0 ≤ x) : jsSqrt (fin x) = fin (Real.sqrt x) := by
  simp [jsSqrt, h]
@[simp] theorem jsSqrt_nan : jsSqrt nan = nan := rfl

@[simp] theorem jsRound_fin (x : ℝ) : jsRound (fin x) = fin (⌊x + 1 / 2⌋ : ℤ) := rfl
@[simp] theorem jsRound_nan : jsRound nan = nan := rfl

@[simp] theorem jsSum_nil : jsSum [] = fin 0 := rfl
theorem jsSum_foldl_fin (l : List ℝ) : ∀ a : ℝ, (l.map fin).foldl jsAdd (fin a) = fin (a + l.sum) := by
  induction l with
  | nil => intro a; simp
  | cons x t ih => intro a; simp [List.foldl_cons, ih, add_assoc]

theorem jsSum_map_fin (l : List ℝ) : jsSum (l.map fin) = fin l.sum := by
  simpa using jsSum_foldl_fin l 0

end JsNum

@[simp] theorem validFilter_map_fin (l : List ℝ) : validFilter (l.map JsNum.fin) = l.map JsNum.fin := by
  simp [validFilter, List.filter_map, Function.comp_def]


namespace JsNum

theorem jsSum_map_fin_comp {α : Type} (g : α → ℝ) (l : List α) :
    jsSum (l.map (fun x => fin (g x))) = fin (l.map g).sum := by
  rw [show (fun x => fin (g x)) = fin ∘ g from rfl, ← List.map_map]
  exact jsSum_map_fin _

theorem jsMin_fin_min (x y : ℝ) : jsMin (fin x) (fin y) = fin (min x y) := by
  rcases le_or_lt x y with h | h
  · rw [jsMin_fin_left h, min_eq_left h]
  · rw [jsMin_fin_right h, min_eq_right h.le]

end JsNum

theorem length_map_fin_cons (p0 : ℝ) (tl : List ℝ) :
    ((p0 :: tl).map JsNum.fin).length = tl.length + 1 := by simp

theorem tl_length_ne_zero {tl : List ℝ} (htl : tl ≠ []) : ((tl.length : ℝ)) ≠ 0 := by
  have := List.length_pos.2 htl
  positivity

theorem historicalAvg_cons (p0 : ℝ) (tl : List ℝ) (htl : tl ≠ []) :
    historicalAvg ((p0 :: tl).map JsNum.fin) = .fin (tl.sum / tl.length) := by
  have hne := tl_length_ne_zero htl
  rw [historicalAvg]
  have h1 : ((p0 :: tl).map JsNum.fin).tail = tl.map JsNum.fin := by simp
  rw [h1, jsSum_map_fin, length_map_fin_cons]
  have h2 : ((tl.length + 1 : ℕ) : ℝ) - 1 = (tl.length : ℝ) := by push_cast; ring
  rw [h2, jsDiv_fin_fin hne]

theorem mostRecentPrice_cons (p0 : ℝ) (tl : List ℝ) :
    mostRecentPrice ((p0 :: tl).map JsNum.fin) = .fin p0 := rfl

theorem dropPercentage_cons (p0 : ℝ) (tl : List ℝ) (htl : tl ≠ [])
    (ha : tl.sum / tl.length ≠ 0) :
    dropPercentage ((p0 :: tl).map JsNum.fin) =
      .fin ((tl.sum / tl.length - p0) / (tl.sum / tl.length) * 100) := by
  rw [dropPercentage, historicalAvg_cons p0 tl htl, mostRecentPrice_cons]
  rw [jsSub_fin, jsDiv_fin_fin ha, jsMul_fin]

theorem meanPrice_cons (p0 : ℝ) (tl : List ℝ) :
    meanPrice ((p0 :: tl).map JsNum.fin) = .fin ((p0 :: tl).sum / (tl.length + 1)) := by
  have hne : ((tl.length : ℝ) + 1) ≠ 0 := by positivity
  rw [meanPrice, jsSum_map_fin, length_map_fin_cons]
  rw [show (((tl.length + 1 : ℕ)) : ℝ) = (tl.length : ℝ) + 1 by push_cast; ring]
  rw [jsDiv_fin_fin hne]

theorem priceVariance_cons (p0 : ℝ) (tl : List ℝ) :
    ∃ s2 : ℝ, priceVariance ((p0 :: tl).map JsNum.fin) = .fin s2 ∧ 0 ≤ s2 := by
  have hne : ((tl.length : ℝ) + 1) ≠ 0 := by positivity
  set μ : ℝ := (p0 :: tl).sum / (tl.length + 1) with hμ
  have hmap : ((p0 :: tl).map JsNum.fin).map
      (fun pr => jsMul (jsSub pr (meanPrice ((p0 :: tl).map JsNum.fin)))
        (jsSub pr (meanPrice ((p0 :: tl).map JsNum.fin)))) =
      (p0 :: tl).map (fun x => JsNum.fin ((x - μ) * (x - μ))) := by
    rw [meanPrice_cons, List.map_map]
    apply List.map_congr_left
    intro x _
    simp [Function.comp, hμ]
  refine ⟨((p0 :: tl).map (fun x => (x - μ) * (x - μ))).sum / (tl.length + 1), ?_, ?_⟩
  · rw [priceVariance, hmap, jsSum_map_fin_comp, length_map_fin_cons]
    rw [show (((tl.length + 1 : ℕ)) : ℝ) = (tl.length : ℝ) + 1 by push_cast; ring]
    rw [jsDiv_fin_fin hne]
  · apply div_nonneg
    · apply List.sum_nonneg
      intro y hy
      obtain ⟨x, _, rfl⟩ := List.mem_map.1 hy
      exact mul_self_nonneg _
    · positivity

theorem trendMultiplier_nonneg (v : List JsNum) (p : HotnessScoreParams)
    (hr : paramsInRange p) : 0 ≤ trendMultiplier v p := by
  obtain ⟨-, -, -, -, -, -, -, -, h1, -, h2, -, h3, -, -, -⟩ := hr
  rw [trendMultiplier]
  split
  · linarith
  · split
    · linarith
    · linarith

theorem volatilityScore_cons_nonneg (p0 : ℝ) (tl : List ℝ) (p : HotnessScoreParams)
    (hr : paramsInRange p) :
    ∃ w : ℝ, volatilityScore ((p0 :: tl).map JsNum.fin) p = .fin w ∧ 0 ≤ w := by
  have hth : 1 ≤ p.volatilityThreshold := hr.2.2.2.2.1
  have hbonus : 20 ≤ p.volatilityMaxBonus := hr.2.2.2.2.2.2.1
  have hmult := trendMultiplier_nonneg ((p0 :: tl).map JsNum.fin) p hr
  obtain ⟨s2, hs2, hs2nn⟩ := priceVariance_cons p0 tl
  have hsqrt : jsSqrt (priceVariance ((p0 :: tl).map JsNum.fin)) = .fin (Real.sqrt s2) := by
    rw [hs2, jsSqrt_fin hs2nn]
  have hsnn : 0 ≤ Real.sqrt s2 := Real.sqrt_nonneg _
  rw [volatilityScore, volatilityPercentage, hsqrt, meanPrice_cons]
  by_cases hμ : (p0 :: tl).sum / (tl.length + 1) = 0
  · rw [hμ]
    rcases eq_or_lt_of_le hsnn with hz | hpos
    · rw [← hz, jsDiv_zero_zero, jsMul_nan_left, jsLe_fin_nan]
      exact ⟨0, by simp, le_refl 0⟩
    · rw [jsDiv_fin_zero_pos hpos, jsMul_posInf_fin_pos (by norm_num : (0:ℝ) < 100)]
      rw [jsLe_fin_posInf, if_pos rfl]
      rw [jsDiv_posInf_fin_nonneg (by norm_num : (0:ℝ) ≤ 10), jsMin_fin_posInf]
      rw [jsMul_fin, jsMul_fin]
      exact ⟨1 * p.volatilityMaxBonus * trendMultiplier ((p0 :: tl).map JsNum.fin) p,
        rfl, by nlinarith⟩
  · rw [jsDiv_fin_fin hμ, jsMul_fin]
    set V : ℝ := Real.sqrt s2 / ((p0 :: tl).sum / (tl.length + 1)) * 100 with hV
    by_cases hcmp : p.volatilityThreshold ≤ V
    · rw [jsLe_fin_true hcmp, if_pos rfl]
      rw [jsDiv_fin_fin (by norm_num : (10:ℝ) ≠ 0), jsMin_fin_min, jsMul_fin, jsMul_fin]
      refine ⟨min 1 (V / 10) * p.volatilityMaxBonus * trendMultiplier ((p0 :: tl).map JsNum.fin) p, rfl, ?_⟩
      have hVpos : 0 < V := lt_of_lt_of_le (by linarith) hcmp
      have hmin : 0 ≤ min 1 (V / 10) := le_min (by norm_num) (by positivity)
      exact mul_nonneg (mul_nonneg hmin (by linarith)) hmult
    · rw [jsLe_fin_false (lt_of_not_le hcmp)]
      rw [if_neg (by simp)]
      exact ⟨0, rfl, le_refl 0⟩

theorem validFilter_eq_map_of_no_inf (l : List JsNum)
    (hval : ∀ x ∈ l, x = JsNum.nan ∨ ∃ r : ℝ, x = JsNum.fin r) :
    ∃ rs : List ℝ, validFilter l = rs.map JsNum.fin := by
  induction l with
  | nil => exact ⟨[], rfl⟩
  | cons x t ih =>
    obtain ⟨rs, hrs⟩ := ih (fun y hy => hval y (List.mem_cons_of_mem x hy))
    rcases hval x (List.mem_cons_self x t) with hx | ⟨r, hx⟩
    · subst hx
      exact ⟨rs, by simp [validFilter] at hrs ⊢; exact hrs⟩
    · subst hx
      refine ⟨r :: rs, ?_⟩
      simp [validFilter] at hrs ⊢
      exact hrs

theorem scorer_ok_iff (l : List JsNum) (p : HotnessScoreParams) :
    (∃ r, calculateHotnessScore l p = .ok r) ↔ 2 ≤ (validFilter l).length := by
  have hfl : (validFilter l).length ≤ l.length := List.length_filter_le _ _
  simp only [calculateHotnessScore]
  split_ifs with h1 h2 h3
  · simp [validFilter] at hfl ⊢
    omega
  · simp
    omega
  · simp
    omega
  · simp
    omega

/-- The reverse/slice/reverse pipeline is just `take`: it preserves the
newest-first construction order, returning the `amountOfPeriods` most recent
periods with the newest still at index 0. -/
theorem periodsToReturn_eq_take {α : Type} (periods : List α) (m : ℕ) :
    periodsToReturn periods m = periods.take m := by
  rw [periodsToReturn, List.length_reverse, List.drop_reverse, List.reverse_reverse]
  rcases le_or_lt m periods.length with h | h
  · congr 1
    omega
  · rw [List.take_of_length_le (by omega), List.take_of_length_le (by omega)]

/-- Predicate `canScore` is faithful to the loop body: an update is staged exactly when
`recent_prices` is present with at least 2 periods and the scorer call
succeeds (for any parameter set — success does not depend on the
parameters). -/
theorem canScore_iff (s : BatchSymbol) (p : HotnessScoreParams) :
    canScore s = true ↔ ∃ ps, s.recent_prices = some ps ∧ 2 ≤ ps.length ∧
      ∃ r, calculateHotnessScore (scorerInput ps) p = .ok r := by
  cases hps : s.recent_prices with
  | none => simp [canScore, hps]
  | some ps =>
    simp only [canScore, hps, Option.some.injEq]
    rw [Bool.and_eq_true]
    constructor
    · rintro ⟨h1, h2⟩
      refine ⟨ps, rfl, by simpa using h1, ?_⟩
      rw [scorer_ok_iff]
      simpa using h2
    · rintro ⟨ps', hps', h2, r, hr⟩
      subst hps'
      have := (scorer_ok_iff (scorerInput ps) p).1 ⟨r, hr⟩
      constructor
      · simpa using h2
      · simpa using this

theorem canScore_isSome {s : BatchSymbol} (h : canScore s = true) :
    s.recent_prices.isSome = true := by
  cases hps : s.recent_prices with
  | none => rw [canScore, hps] at h; exact absurd h (by simp)
  | some ps => simp


theorem le_getLast_of_sorted (l : List BatchSymbol)
    (hsort : l.Pairwise (fun a b => a.id < b.id)) (hne : l ≠ []) :
    ∀ s ∈ l, s.id ≤ (l.getLast hne).id := by
  intro s hs
  rw [List.getLast_eq_getElem]
  obtain ⟨i, hi, rfl⟩ := List.mem_iff_getElem.1 hs
  rcases lt_or_eq_of_le (Nat.le_pred_of_lt hi) with h | h
  · exact le_of_lt ((List.pairwise_iff_getElem.1 hsort) i (l.length - 1) hi (by omega) h)
  · subst h
    exact le_refl _

theorem fetchSymbols_none (db : List BatchSymbol) (k : ℕ)
    (helig : ∀ s ∈ db, s.recent_prices.isSome = true) :
    fetchSymbols db none k = db.take k := by
  rw [fetchSymbols]
  congr 1
  apply List.filter_eq_self.2
  intro a ha
  simp [helig a ha]

theorem mem_fetchSymbols_after {db : List BatchSymbol} {c k : ℕ} {s : BatchSymbol}
    (hs : s ∈ fetchSymbols db (some c) k) : c < s.id := by
  rw [fetchSymbols] at hs
  have := List.mem_of_mem_take hs
  rw [List.mem_filter] at this
  have h2 := this.2
  simp only [Bool.and_eq_true, decide_eq_true_eq] at h2
  exact h2.2

theorem fetchSymbols_some_eq (db : List BatchSymbol) (c k : ℕ) :
    fetchSymbols db (some c) k
      = (db.filter (fun s => s.recent_prices.isSome && decide (c < s.id))).take k := rfl

theorem fetchSymbols_after (db : List BatchSymbol)
    (hsort : db.Pairwise (fun a b => a.id < b.id))
    (helig : ∀ s ∈ db, s.recent_prices.isSome = true)
    (n : ℕ) (hn : n < db.length) (k : ℕ) :
    fetchSymbols db (some (db[n].id)) k = (db.drop (n + 1)).take k := by
  have hget := List.pairwise_iff_getElem.1 hsort
  rw [fetchSymbols_some_eq]
  congr 1
  generalize hc : db[n].id = c
  conv_lhs => rw [← List.take_append_drop (n + 1) db]
  rw [List.filter_append]
  have h1 : (db.take (n + 1)).filter
      (fun s => s.recent_prices.isSome && decide (c < s.id)) = [] := by
    apply List.filter_eq_nil_iff.2
    intro a ha
    obtain ⟨i, hi, rfl⟩ := List.mem_iff_getElem.1 ha
    have hil : i < n + 1 := by
      have := hi
      simp at this
      omega
    simp only [List.getElem_take, Bool.and_eq_true, decide_eq_true_eq, not_and]
    rintro -
    rcases lt_or_eq_of_le (Nat.lt_succ_iff.1 hil) with h | h
    · have hlt := hget i n (by omega) hn h
      rw [hc] at hlt
      omega
    · subst h
      omega
  have h2 : (db.drop (n + 1)).filter
      (fun s => s.recent_prices.isSome && decide (c < s.id)) = db.drop (n + 1) := by
    apply List.filter_eq_self.2
    intro a ha
    obtain ⟨j, hj, rfl⟩ := List.mem_iff_getElem.1 ha
    have hjl : n + 1 + j < db.length := by
      have := hj
      simp at this
      omega
    simp only [List.getElem_drop, Bool.and_eq_true, decide_eq_true_eq]
    constructor
    · apply helig
      exact List.getElem_mem hjl
    · have hlt := hget n (n + 1 + j) hn hjl (by omega)
      rw [hc] at hlt
      exact hlt
  rw [h1, h2, List.nil_append]

theorem beq_congr_nat {a b c d : ℕ} (h : (a = b) ↔ (c = d)) :
    ((a == b) : Bool) = ((c == d) : Bool) := by
  by_cases hab : a = b
  · simp [hab, h.1 hab]
  · have hcd : ¬ c = d := fun hc => hab (h.2 hc)
    simp [hab, hcd]

theorem sweepCalls_succ (db : List BatchSymbol) (k n : ℕ) (cont : Option ℕ) :
    sweepCalls db k (n + 1) cont
      = runBatch db cont k :: sweepCalls db k n (runBatch db cont k).lastProcessedId := rfl

theorem sweepCalls_spec (db : List BatchSymbol) (k : ℕ)
    (hsort : db.Pairwise (fun a b => a.id < b.id))
    (hscore : ∀ s ∈ db, canScore s = true) (hk : 0 < k) :
    ∀ (n m : ℕ) (cont : Option ℕ),
      fetchSymbols db cont k = (db.drop m).take k →
      m + n * k < db.length →
      db.length ≤ m + (n + 1) * k →
      (((sweepCalls db k (n + 1) cont).map (fun r => r.processedIds)).flatten
          = (db.drop m).map (fun s => s.id)) ∧
      (((sweepCalls db k (n + 1) cont).map (fun r => r.hasMore)).getLast?
          = some (db.length - m == (n + 1) * k)) := by
  have helig : ∀ s ∈ db, s.recent_prices.isSome = true :=
    fun s hs => canScore_isSome (hscore s hs)
  intro n
  induction n with
  | zero =>
    intro m cont hfetch hlt hle
    replace hlt : m < db.length := by simpa using hlt
    replace hle : db.length ≤ m + k := by simpa using hle
    have hpage : fetchSymbols db cont k = db.drop m := by
      rw [hfetch]
      exact List.take_of_length_le (by simp; omega)
    have hne : db.drop m ≠ [] := by
      apply List.length_pos.1
      simp
      omega
    have hfilter : (db.drop m).filter canScore = db.drop m :=
      List.filter_eq_self.2 (fun s hs => hscore s (List.mem_of_mem_drop hs))
    simp only [sweepCalls, runBatch, hpage]
    rw [if_neg (by simp [hne])]
    constructor
    · simp [hfilter]
    · simp [one_mul, List.length_drop]
  | succ n ih =>
    intro m cont hfetch hlt hle
    have hkn1 : k ≤ (n + 1) * k := Nat.le_mul_of_pos_left k (Nat.succ_pos n)
    have hlen_drop : (db.drop m).length = db.length - m := List.length_drop m db
    have hfull : ((db.drop m).take k).length = k := by
      rw [List.length_take]
      simp
      omega
    have hne : (db.drop m).take k ≠ [] := by
      apply List.length_pos.1
      rw [hfull]
      exact hk
    have hmk1 : m + k - 1 < db.length := by omega
    have hlast : ((db.drop m).take k).getLast hne = db[m + k - 1] := by
      rw [List.getLast_eq_getElem]
      have hidx : ((db.drop m).take k).length - 1 < ((db.drop m).take k).length := by
        rw [hfull]; omega
      rw [List.getElem_take, List.getElem_drop]
      congr 1
      rw [hfull]
      omega
    have hfilter : ((db.drop m).take k).filter canScore = (db.drop m).take k :=
      List.filter_eq_self.2
        (fun s hs => hscore s (List.mem_of_mem_drop (List.mem_of_mem_take hs)))
    have hmore : (((db.drop m).take k).length == k) = true := by
      rw [hfull]
      exact beq_self_eq_true k
    -- the continuation token is the id of the page's last element
    have hfetch2 : fetchSymbols db (some ((db[m + k - 1]).id)) k
        = (db.drop (m + k)).take k := by
      have := fetchSymbols_after db hsort helig (m + k - 1) hmk1 k
      rw [show m + k - 1 + 1 = m + k by omega] at this
      exact this
    have hih := ih (m + k) (some ((db[m + k - 1]).id)) hfetch2
      (by rw [Nat.succ_mul] at hlt; omega)
      (by rw [Nat.succ_mul (n + 1) k] at hle; omega)
    have htok : (runBatch db cont k).lastProcessedId = some ((db[m + k - 1]).id) := by
      rw [runBatch, hfetch]
      rw [if_neg (by simp [hne])]
      simp [hmore, List.getLast?_eq_getLast _ hne, hlast]
      omega
    have hproc : (runBatch db cont k).processedIds
        = ((db.drop m).take k).map (fun s => s.id) := by
      rw [runBatch, hfetch]
      rw [if_neg (by simp [hne])]
      simp [hfilter]
    rw [show n + 1 + 1 = (n + 1) + 1 from rfl]
    rw [sweepCalls_succ db k (n + 1) cont, htok]
    constructor
    · rw [List.map_cons, List.flatten_cons, hproc, hih.1, ← List.map_append]
      congr 1
      rw [← List.drop_drop, List.take_append_drop]
    · rw [List.map_cons]
      have hrest := hih.2
      rw [sweepCalls_succ db k n (some ((db[m + k - 1]).id)), List.map_cons] at hrest ⊢
      rw [List.getLast?_cons_cons, hrest]
      congr 1
      apply beq_congr_nat
      rw [Nat.succ_mul (n + 1) k]
      constructor
      · intro h; omega
      · intro h; omega
theorem persistUpdates_aux (fails : ℕ → Bool) :
    ∀ (updates : List ScoreUpdate) (db : List ScoredRow) (e : ℕ),
      updates.foldl
        (fun acc u => if fails u.id then (acc.1, acc.2 + 1) else (applyUpdate acc.1 u, acc.2))
        (db, e)
      = ((updates.filter (fun u => !(fails u.id))).foldl applyUpdate db,
         e + (updates.filter (fun u => fails u.id)).length) := by
  intro updates
  induction updates with
  | nil => intro db e; simp
  | cons u t ih =>
    intro db e
    rw [List.foldl_cons]
    by_cases hf : fails u.id = true
    · rw [if_pos hf, ih]
      simp [List.filter_cons, hf]
      omega
    · rw [if_neg hf, ih]
      simp only [Bool.not_eq_true] at hf
      simp [List.filter_cons, hf]


/-- C1: the spec requires the average-price sequence handed to
`calculateHotnessScore` by the batch loop to be newest-first.  The fetch
pipeline stores periods newest-first (`periodsToReturn` of the newest-first
construction is a prefix, `periodsToReturn_eq_take`), yet the loop reverses
the stored list, so the scorer's index 0 holds the OLDEST period's average
price: for the newest-first stored list below (newest average 68, oldest
100), `scorerInput` starts with 100, and with default parameters the
mis-ordered sequence scores 0 where the newest-first sequence scores 85
(see the C8 theorem). -/
theorem hotness_batch_reverses_newest_first :
    periodsToReturn
        ([⟨0, 5, .fin 68⟩, ⟨5, 10, .fin 101⟩, ⟨10, 15, .fin 102⟩,
          ⟨15, 20, .fin 101⟩, ⟨20, 25, .fin 100⟩, ⟨25, 30, .fin 99⟩] :
          List AveragePricePeriod) 5
      = [⟨0, 5, .fin 68⟩, ⟨5, 10, .fin 101⟩, ⟨10, 15, .fin 102⟩,
         ⟨15, 20, .fin 101⟩, ⟨20, 25, .fin 100⟩] ∧
    scorerInput
        [⟨0, 5, .fin 68⟩, ⟨5, 10, .fin 101⟩, ⟨10, 15, .fin 102⟩,
         ⟨15, 20, .fin 101⟩, ⟨20, 25, .fin 100⟩]
      = [.fin 100, .fin 101, .fin 102, .fin 101, .fin 68] ∧
    calculateHotnessScore [.fin 100, .fin 101, .fin 102, .fin 101, .fin 68]
        DEFAULT_HOTNESS_PARAMS = .ok (.fin 0) := by
  refine ⟨rfl, rfl, ?_⟩
  norm_num [calculateHotnessScore, validFilter, dropPercentage, historicalAvg,
    mostRecentPrice, jsSum]

/-- C2: a zero historical average is NOT rejected as `InvalidInput` by the
code: on the input `[0, 0]` (two valid entries, historical average `0`) the
division by zero propagates and `calculateHotnessScore` returns NaN as an
ordinary value instead of raising an error. -/
theorem zero_historical_average_returns_nan :
    calculateHotnessScore [.fin 0, .fin 0] DEFAULT_HOTNESS_PARAMS = .ok .nan := by
  norm_num [calculateHotnessScore, validFilter, dropPercentage, historicalAvg,
    mostRecentPrice, jsSum, hotnessRaw, dropScore, volatilityScore,
    volatilityPercentage, meanPrice, priceVariance, DEFAULT_HOTNESS_PARAMS]

/-- C3 (counterexample): with M = 2 eligible instruments and batchSize
k = 1 (so k < M and ⌈M/k⌉ = 2), repeatedly chaining `lastProcessedId` does
score every instrument exactly once in 2 calls, but the final call reports
`hasMore = true` — not `false` as the claim states — because `hasMore` is
the full-page heuristic `symbols.length == batchSize` and 2 is an exact
multiple of 1. -/
theorem batch_resumability_counterexample :
    twoSymbolDb.Pairwise (fun a b => a.id < b.id) ∧
    (∀ s ∈ twoSymbolDb, canScore s = true) ∧
    (1 : ℕ) < twoSymbolDb.length ∧
    (twoSymbolDb.length + 1 - 1) / 1 = 2 ∧
    ((sweepCalls twoSymbolDb 1 2 none).map (fun r => r.processedIds)).flatten
      = twoSymbolDb.map (fun s => s.id) ∧
    ((sweepCalls twoSymbolDb 1 2 none).map (fun r => r.hasMore)).getLast?
      = some true := by
  decide

/-- C3 (amended): for a sorted collection of M scorable instruments and
0 < k < M with k NOT dividing M, chaining each returned `lastProcessedId`
into the next `continueFromId` scores every eligible instrument exactly once
across ⌈M/k⌉ = (M + k - 1) / k calls (the concatenated processed-id lists
equal the full id list, which has no duplicates), and the final call reports
`hasMore = false`.  When k divides M the ⌈M/k⌉-th call still completes the
sweep but reports `hasMore = true` (see the counterexample). -/
theorem batch_resumability (db : List BatchSymbol) (k : ℕ)
    (hsort : db.Pairwise (fun a b => a.id < b.id))
    (hscore : ∀ s ∈ db, canScore s = true)
    (hk : 0 < k) (hkM : k < db.length) (hnd : ¬ k ∣ db.length) :
    (((sweepCalls db k ((db.length + k - 1) / k) none).map
        (fun r => r.processedIds)).flatten = db.map (fun s => s.id)) ∧
    (db.map (fun s => s.id)).Nodup ∧
    (((sweepCalls db k ((db.length + k - 1) / k) none).map
        (fun r => r.hasMore)).getLast? = some false) := by
  have helig : ∀ s ∈ db, s.recent_prices.isSome = true :=
    fun s hs => canScore_isSome (hscore s hs)
  have hnodup : (db.map (fun s => s.id)).Nodup := by
    apply List.Pairwise.imp _ (List.pairwise_map.2 hsort)
    exact fun h => Nat.ne_of_lt h
  have hdm := Nat.div_add_mod (db.length + k - 1) k
  have hmod : (db.length + k - 1) % k < k := Nat.mod_lt _ hk
  generalize hgc : (db.length + k - 1) / k = c at hdm ⊢
  obtain ⟨n, rfl⟩ : ∃ n, c = n + 1 := by
    rcases c with _ | n
    · exfalso
      rw [Nat.mul_zero] at hdm
      omega
    · exact ⟨n, rfl⟩
  have hnk : k * (n + 1) = k * n + k := by ring
  have h1 : (n + 1) * k = k * (n + 1) := Nat.mul_comm _ _
  have h2 : n * k = k * n := Nat.mul_comm _ _
  have hfetch : fetchSymbols db none k = (db.drop 0).take k := by
    rw [fetchSymbols_none db k helig, List.drop_zero]
  have hspec := sweepCalls_spec db k hsort hscore hk n 0 none hfetch
    (by omega) (by omega)
  refine ⟨?_, hnodup, ?_⟩
  · rw [hspec.1, List.drop_zero]
  · rw [hspec.2]
    have hMne : (db.length - 0 == (n + 1) * k) = false := by
      apply beq_eq_false_iff_ne.2
      intro hEq
      exact hnd ⟨n + 1, by omega⟩
    rw [hMne]

/-- C3 (witness): the amended resumability theorem applied to 3 instruments
and batchSize 2 (so ⌈3/2⌉ = 2 calls, final call reports no more work). -/
theorem batch_resumability_witness :
    (((sweepCalls threeSymbolDb 2 ((threeSymbolDb.length + 2 - 1) / 2) none).map
        (fun r => r.processedIds)).flatten = threeSymbolDb.map (fun s => s.id)) ∧
    (threeSymbolDb.map (fun s => s.id)).Nodup ∧
    (((sweepCalls threeSymbolDb 2 ((threeSymbolDb.length + 2 - 1) / 2) none).map
        (fun r => r.hasMore)).getLast? = some false) :=
  batch_resumability threeSymbolDb 2 (by decide) (by decide) (by decide)
    (by decide) (by decide)

/-- C4 (counterexample): persistence is not all-or-nothing.  With two staged
updates where the write for id 2 fails, the call as a whole reports failure
(one collected error, answered as HTTP 500), yet instrument 1's stored score
HAS durably changed to 50 — contradicting the claim that every instrument's
stored state is as it was before the call. -/
theorem persistence_counterexample :
    ((persistUpdates [⟨1, none, none⟩, ⟨2, none, none⟩]
        [⟨1, 50, 7⟩, ⟨2, 60, 7⟩] (fun i => i == 2)).1.map
          (fun r => r.hotness_score) = [some 50, none]) ∧
    (persistUpdates [⟨1, none, none⟩, ⟨2, none, none⟩]
        [⟨1, 50, 7⟩, ⟨2, 60, 7⟩] (fun i => i == 2)).2 = 1 := by
  decide

/-- C4 (amended): persistence is per-instrument, not atomic per batch call:
the store after the persistence loop is exactly the original store with
every non-failing staged update applied (failing ones skipped), and the call
reports failure (nonzero collected errors, answered as HTTP 500 with no
resume token, so the caller retries the same `continueFromId`) exactly when
at least one individual update failed. -/
theorem persistence_partial_per_row (db : List ScoredRow)
    (updates : List ScoreUpdate) (fails : ℕ → Bool) :
    (persistUpdates db updates fails).1
        = (updates.filter (fun u => !(fails u.id))).foldl applyUpdate db ∧
    ((persistUpdates db updates fails).2 ≠ 0 ↔ ∃ u ∈ updates, fails u.id = true) := by
  rw [persistUpdates, persistUpdates_aux]
  refine ⟨rfl, ?_⟩
  simp only [Nat.zero_add, ne_eq]
  constructor
  · intro h
    have hne : List.filter (fun u => fails u.id) updates ≠ [] := by
      intro hnil
      rw [hnil] at h
      exact h rfl
    obtain ⟨u, hu⟩ := List.exists_mem_of_ne_nil _ hne
    have hm := List.mem_filter.1 hu
    exact ⟨u, hm.1, hm.2⟩
  · rintro ⟨u, hu, hf⟩ h0
    have hmem : u ∈ List.filter (fun u => fails u.id) updates := List.mem_filter.2 ⟨hu, hf⟩
    have := List.length_pos.2 (List.ne_nil_of_mem hmem)
    omega

/-- C5: monotonic clamp — for every price list whose entries are numbers or
NaN, with at least 2 valid entries after filtering, parameters within the
documented ranges, and a nonzero historical average, `calculateHotnessScore`
succeeds with a finite value in [0, 100]. -/
theorem hotness_clamp (l : List JsNum) (p : HotnessScoreParams)
    (hval : ∀ x ∈ l, x = JsNum.nan ∨ ∃ r : ℝ, x = JsNum.fin r)
    (hlen : 2 ≤ (validFilter l).length)
    (hr : paramsInRange p)
    (ha : historicalAvg (validFilter l) ≠ JsNum.fin 0) :
    ∃ s : ℝ, calculateHotnessScore l p = .ok (.fin s) ∧ 0 ≤ s ∧ s ≤ 100 := by
  obtain ⟨rs, hrs⟩ := validFilter_eq_map_of_no_inf l hval
  have hlen2 : 2 ≤ l.length := le_trans hlen (List.length_filter_le _ l)
  rw [hrs] at hlen ha
  have hrsl : 2 ≤ rs.length := by simpa using hlen
  match rs, hrsl, hrs, ha with
  | p0 :: t0 :: tr, _, hrs, ha =>
  set tl : List ℝ := t0 :: tr with htldef
  have htl : tl ≠ [] := by simp [htldef]
  have ha2 : tl.sum / tl.length ≠ 0 := by
    intro h0
    apply ha
    rw [historicalAvg_cons p0 tl htl, h0]
  have hdp := dropPercentage_cons p0 tl htl ha2
  set a : ℝ := tl.sum / tl.length with hadef
  set d : ℝ := (a - p0) / a * 100 with hddef
  have hsens : 10 ≤ p.dropSensitivity := hr.1
  have hmax : 60 ≤ p.dropMaxScore := hr.2.2.1
  rw [calculateHotnessScore]
  rw [if_neg (by omega)]
  simp only [hrs]
  rw [if_neg (by simp [htldef])]
  rw [hdp]
  by_cases hd : d ≤ 0
  · rw [jsLe_fin_true hd, if_pos rfl]
    exact ⟨0, rfl, le_refl 0, by norm_num⟩
  · push_neg at hd
    rw [jsLe_fin_false hd, if_neg (by simp)]
    have hds : dropScore ((p0 :: tl).map JsNum.fin) p
        = .fin (min p.dropMaxScore (d * p.dropSensitivity)) := by
      rw [dropScore, hdp, jsMul_fin, jsMin_fin_min]
    obtain ⟨w, hw, hwnn⟩ := volatilityScore_cons_nonneg p0 tl p hr
    rw [hotnessRaw, hds, hw, jsAdd_fin, jsMin_fin_min]
    set ds : ℝ := min p.dropMaxScore (d * p.dropSensitivity) with hdsdef
    have hds0 : 0 < ds := lt_min (by linarith) (by nlinarith)
    set h : ℝ := min 100 (ds + w) with hhdef
    have hh0 : 0 ≤ h := le_min (by norm_num) (by linarith)
    have hh1 : h ≤ 100 := min_le_left _ _
    rw [jsMul_fin, jsRound_fin, jsDiv_fin_fin (by norm_num : (100:ℝ) ≠ 0)]
    refine ⟨((⌊h * 100 + 1 / 2⌋ : ℤ) : ℝ) / 100, rfl, ?_, ?_⟩
    · apply div_nonneg _ (by norm_num)
      have : (0 : ℤ) ≤ ⌊h * 100 + 1 / 2⌋ := Int.floor_nonneg.2 (by linarith)
      exact_mod_cast this
    · have hle : (⌊h * 100 + 1 / 2⌋ : ℤ) ≤ 10000 := by
        have hb : h * 100 + 1 / 2 ≤ 10000 + 1 / 2 := by linarith
        calc (⌊h * 100 + 1 / 2⌋ : ℤ) ≤ ⌊(10000 + 1 / 2 : ℝ)⌋ := Int.floor_le_floor hb
          _ = 10000 := by norm_num [Int.floor_eq_iff]
      have hcast : ((⌊h * 100 + 1 / 2⌋ : ℤ) : ℝ) ≤ 10000 := by exact_mod_cast hle
      linarith [hcast]

/-- C5 (witness): the clamp theorem applied to prices [5, 10] with default
parameters. -/
theorem hotness_clamp_witness :
    ∃ s : ℝ, calculateHotnessScore [.fin 5, .fin 10] DEFAULT_HOTNESS_PARAMS
        = .ok (.fin s) ∧ 0 ≤ s ∧ s ≤ 100 :=
  hotness_clamp [.fin 5, .fin 10] DEFAULT_HOTNESS_PARAMS
    (by
      intro x hx
      simp only [List.mem_cons, List.not_mem_nil, or_false] at hx
      rcases hx with rfl | rfl
      · exact Or.inr ⟨5, rfl⟩
      · exact Or.inr ⟨10, rfl⟩)
    (by simp [validFilter])
    (by norm_num [paramsInRange, DEFAULT_HOTNESS_PARAMS])
    (by
      have hv : validFilter [JsNum.fin 5, JsNum.fin 10]
          = ((5 : ℝ) :: [(10 : ℝ)]).map JsNum.fin := by
        simp [validFilter]
      rw [hv, historicalAvg_cons 5 [10] (by simp)]
      simp)

/-- C6 (counterexample): the no-drop rule fails when the historical average
is negative: for prices [-1, -2] the most recent price (-1) is at or above
the historical average (-2), yet the score is 70, not 0 — the sign of the
historical average flips the drop percentage. -/
theorem no_drop_counterexample :
    ((-2 : ℝ)) / 1 ≤ (-1 : ℝ) ∧
    calculateHotnessScore [.fin (-1), .fin (-2)] DEFAULT_HOTNESS_PARAMS
      = .ok (.fin 70) ∧
    JsNum.fin (70 : ℝ) ≠ JsNum.fin 0 := by
  refine ⟨by norm_num, ?_, by simp⟩
  have hsq : Real.sqrt (1 / 4) = 1 / 2 := by
    rw [show (1 / 4 : ℝ) = (1 / 2) ^ 2 by norm_num, Real.sqrt_sq (by norm_num)]
  norm_num [calculateHotnessScore, validFilter, dropPercentage, historicalAvg,
    mostRecentPrice, oldestPrice, trendPercentage, trendMultiplier, jsSum,
    hotnessRaw, dropScore, volatilityScore, volatilityPercentage, meanPrice,
    priceVariance, DEFAULT_HOTNESS_PARAMS, hsq, Int.floor_eq_iff]

/-- C6 (amended): no-drop implies zero provided the historical average is
positive: for any finite price list whose most recent entry is at least the
mean of the remaining (older) entries, and that mean is positive,
`calculateHotnessScore` returns exactly 0 (early return, no volatility
bonus). -/
theorem no_drop_zero (p0 : ℝ) (tl : List ℝ) (p : HotnessScoreParams)
    (htl : tl ≠ [])
    (hpos : 0 < tl.sum / tl.length) (hge : tl.sum / tl.length ≤ p0) :
    calculateHotnessScore ((p0 :: tl).map JsNum.fin) p = .ok (.fin 0) := by
  have ha : tl.sum / tl.length ≠ 0 := ne_of_gt hpos
  have hdp := dropPercentage_cons p0 tl htl ha
  have hq : (tl.sum / tl.length - p0) / (tl.sum / tl.length) ≤ 0 :=
    div_nonpos_of_nonpos_of_nonneg (sub_nonpos.2 hge) hpos.le
  have hd : (tl.sum / tl.length - p0) / (tl.sum / tl.length) * 100 ≤ 0 := by nlinarith
  have hlp : 1 ≤ tl.length := List.length_pos.2 htl
  rw [calculateHotnessScore]
  rw [if_neg (by simp; omega)]
  simp only [validFilter_map_fin]
  rw [if_neg (by simp; omega)]
  rw [hdp, jsLe_fin_true hd, if_pos rfl]

/-- C6 (witness): the amended no-drop theorem applied to prices [10, 5]
(most recent 10, historical average 5). -/
theorem no_drop_zero_witness :
    calculateHotnessScore (((10 : ℝ) :: [(5 : ℝ)]).map JsNum.fin)
        DEFAULT_HOTNESS_PARAMS = .ok (.fin 0) :=
  no_drop_zero 10 [5] DEFAULT_HOTNESS_PARAMS (by simp) (by norm_num) (by norm_num)

/-- C7: minimum-input rule — `calculateHotnessScore` succeeds exactly when at
least 2 valid entries remain after filtering out the invalid (NaN) ones; in
particular a single price [5] fails with the validation error and [5, 10]
succeeds. -/
theorem minimum_input_rule :
    (∀ (l : List JsNum) (p : HotnessScoreParams),
        (∃ r, calculateHotnessScore l p = .ok r) ↔ 2 ≤ (validFilter l).length) ∧
    (calculateHotnessScore [.fin 5] DEFAULT_HOTNESS_PARAMS
        = .error "Average prices array must contain at least 2 values") ∧
    (∃ r, calculateHotnessScore [.fin 5, .fin 10] DEFAULT_HOTNESS_PARAMS = .ok r) := by
  refine ⟨scorer_ok_iff, ?_, ?_⟩
  · rw [calculateHotnessScore]
    rw [if_pos (by norm_num)]
  · exact (scorer_ok_iff _ _).2 (by simp [validFilter])

/-- C8: boundary example — for prices [68, 101, 102, 101, 100] with the
default parameters, the drop score is capped at 70, the volatility is above
threshold with a downtrend (trend -32% < -3%) so the bonus is
1 * 30 * 0.5 = 15, and the final score is exactly 85. -/
theorem boundary_capped_drop_downtrend :
    dropScore [.fin 68, .fin 101, .fin 102, .fin 101, .fin 100]
        DEFAULT_HOTNESS_PARAMS = .fin 70 ∧
    volatilityScore [.fin 68, .fin 101, .fin 102, .fin 101, .fin 100]
        DEFAULT_HOTNESS_PARAMS = .fin 15 ∧
    calculateHotnessScore [.fin 68, .fin 101, .fin 102, .fin 101, .fin 100]
        DEFAULT_HOTNESS_PARAMS = .ok (.fin 85) := by
  have hha : historicalAvg [fin 68, fin 101, fin 102, fin 101, fin 100] = .fin 101 := by
    norm_num [historicalAvg, jsSum]
  have hdp : dropPercentage [fin 68, fin 101, fin 102, fin 101, fin 100]
      = .fin (3300 / 101) := by
    norm_num [dropPercentage, hha, mostRecentPrice]
  have hds : dropScore [fin 68, fin 101, fin 102, fin 101, fin 100]
      DEFAULT_HOTNESS_PARAMS = .fin 70 := by
    norm_num [dropScore, hdp, DEFAULT_HOTNESS_PARAMS]
  have hmean : meanPrice [fin 68, fin 101, fin 102, fin 101, fin 100] = .fin (472 / 5) := by
    norm_num [meanPrice, jsSum]
  have hvar : priceVariance [fin 68, fin 101, fin 102, fin 101, fin 100]
      = .fin (4366 / 25) := by
    norm_num [priceVariance, hmean, jsSum]
  have hs : (472 / 50 : ℝ) ≤ Real.sqrt (4366 / 25) := by
    rw [show (472 / 50 : ℝ) = 236 / 25 by norm_num, Real.le_sqrt (by norm_num) (by norm_num)]
    norm_num
  have hvp : volatilityPercentage [fin 68, fin 101, fin 102, fin 101, fin 100] =
      .fin (Real.sqrt (4366 / 25) / (472 / 5) * 100) := by
    norm_num [volatilityPercentage, hmean, hvar]
  have hV : (10 : ℝ) ≤ Real.sqrt (4366 / 25) / (472 / 5) * 100 := by
    rw [div_mul_eq_mul_div, le_div_iff₀ (by norm_num)]
    nlinarith [hs]
  have htr : trendPercentage [fin 68, fin 101, fin 102, fin 101, fin 100] = .fin (-32) := by
    norm_num [trendPercentage, mostRecentPrice, oldestPrice]
  have hmult : trendMultiplier [fin 68, fin 101, fin 102, fin 101, fin 100]
      DEFAULT_HOTNESS_PARAMS = 0.5 := by
    norm_num [trendMultiplier, htr, DEFAULT_HOTNESS_PARAMS]
  have hvs : volatilityScore [fin 68, fin 101, fin 102, fin 101, fin 100]
      DEFAULT_HOTNESS_PARAMS = .fin 15 := by
    rw [volatilityScore, hvp, hmult]
    have h2V : DEFAULT_HOTNESS_PARAMS.volatilityThreshold
        ≤ Real.sqrt (4366 / 25) / (472 / 5) * 100 := by
      have hth : DEFAULT_HOTNESS_PARAMS.volatilityThreshold = 2 := by
        norm_num [DEFAULT_HOTNESS_PARAMS]
      rw [hth]
      linarith
    rw [jsLe_fin_true h2V, jsDiv_fin_fin (by norm_num : (10:ℝ) ≠ 0)]
    rw [jsMin_fin_left (by rw [le_div_iff₀ (by norm_num)]; linarith)]
    norm_num [DEFAULT_HOTNESS_PARAMS]
  refine ⟨hds, hvs, ?_⟩
  rw [calculateHotnessScore]
  norm_num [validFilter, hotnessRaw, hds, hvs, hdp, Int.floor_eq_iff]

/-- C9: the invalidation invariant is violated by the code.  The refresh
route stages `hotness_score: null` and `last_updated_hotness_score: null`
(its comment says "nullify hotness score since it's now invalid"), but
`updateSymbolSchema.parse` strips both keys — the schema knows only `code`,
`exchange` and `recent_prices` — so the repository write replaces the stored
period list while the previously computed score (50) and its timestamp (99)
survive the refresh.  The first conjunct exhibits the stripping itself. -/
theorem refresh_leaves_stale_score :
    updateSymbolSchemaParse
        { recent_prices := some (some [⟨0, 5, .fin 1⟩, ⟨5, 10, .fin 2⟩])
          hotness_score := some none
          last_updated_hotness_score := some none }
      = { recent_prices := some (some [⟨0, 5, .fin 1⟩, ⟨5, 10, .fin 2⟩])
          hotness_score := none
          last_updated_hotness_score := none } ∧
    (refreshSymbol ⟨"ACME", none, some 50, some 99, none⟩ 0
        [⟨0, 5, .fin 1⟩, ⟨5, 10, .fin 2⟩]).recent_prices
      = some [⟨0, 5, .fin 1⟩, ⟨5, 10, .fin 2⟩] ∧
    (refreshSymbol ⟨"ACME", none, some 50, some 99, none⟩ 0
        [⟨0, 5, .fin 1⟩, ⟨5, 10, .fin 2⟩]).hotness_score = some 50 ∧
    (refreshSymbol ⟨"ACME", none, some 50, some 99, none⟩ 0
        [⟨0, 5, .fin 1⟩, ⟨5, 10, .fin 2⟩]).last_updated_hotness_score = some 99 := by
  exact ⟨rfl, rfl, rfl, rfl⟩

/-- C10: the cursor advances past skipped instruments — whenever a batch
call reports `hasMore = true`, its `lastProcessedId` is the id of the last
fetched candidate (the maximum id of the page, in ascending-id order),
independent of which page members were scored, and no member of the page —
scored or skipped — is ever fetched again when resuming from that token. -/
theorem cursor_last_fetched (db : List BatchSymbol) (cont : Option ℕ) (k : ℕ)
    (hsort : db.Pairwise (fun a b => a.id < b.id))
    (hm : (runBatch db cont k).hasMore = true) :
    ∃ last, (fetchSymbols db cont k).getLast? = some last ∧
      (runBatch db cont k).lastProcessedId = some last.id ∧
      (∀ s ∈ fetchSymbols db cont k, s.id ≤ last.id) ∧
      (∀ s ∈ fetchSymbols db cont k, ∀ k1,
          s ∉ fetchSymbols db (some last.id) k1) := by
  have hne : fetchSymbols db cont k ≠ [] := by
    intro hnil
    rw [runBatch, hnil] at hm
    simp at hm
  have hsortp : (fetchSymbols db cont k).Pairwise (fun a b => a.id < b.id) :=
    List.Pairwise.take (List.Pairwise.filter _ hsort)
  have hle := le_getLast_of_sorted _ hsortp hne
  refine ⟨(fetchSymbols db cont k).getLast hne,
    List.getLast?_eq_getLast _ hne, ?_, hle, ?_⟩
  · rw [runBatch] at hm ⊢
    rw [if_neg (by simp [hne])] at hm ⊢
    simp only at hm
    simp [hm, List.getLast?_eq_getLast _ hne]
  · intro s hs k1 hmem
    have h1 := mem_fetchSymbols_after hmem
    have h2 := hle s hs
    omega

/-- C10 (witness): the cursor theorem applied to a two-row store fetched
with batchSize 2, where row 1 has only one period and is skipped while row 2
is scored; both are behind the returned cursor. -/
theorem cursor_last_fetched_witness :
    ∃ last, (fetchSymbols mixedSymbolDb none 2).getLast? = some last ∧
      (runBatch mixedSymbolDb none 2).lastProcessedId = some last.id ∧
      (∀ s ∈ fetchSymbols mixedSymbolDb none 2, s.id ≤ last.id) ∧
      (∀ s ∈ fetchSymbols mixedSymbolDb none 2, ∀ k1,
          s ∉ fetchSymbols mixedSymbolDb (some last.id) k1) :=
  cursor_last_fetched mixedSymbolDb none 2 (by decide) (by decide)
